import Mathlib

/-!
Verification of the aws-tagger repository's natural-language specification
against a shallow embedding of its Go source.

Strings are modelled as `List Char` (`Str`).  Go maps are modelled as
association lists whose insert operation replaces an existing binding of the
same key; the unspecified iteration order of Go maps means any list order is a
faithful representative of the map's contents.  Remote AWS calls are modelled
by environments that supply the successive pages a listing call returns and a
success predicate for apply-tags calls; each per-service pass is embedded as a
pure function from its environment to the trace of remote calls it makes
(and, where the source keeps them, its metrics counters).
-/

namespace AwsTagger

/-- Go strings, modelled as lists of characters. -/
abbrev Str := List Char

/-! ## arn_builder.go: cleanResourceName -/

/-- Embeds `strings.Trim(name, "/")`: remove leading and trailing `'/'`. -/
def trimSlashes (s : Str) : Str :=
  ((s.dropWhile (fun c => c == '/')).reverse.dropWhile (fun c => c == '/')).reverse

/-- Embeds `strings.Contains(name, "//")`. -/
def hasDoubleSlash : Str → Bool
  | [] => false
  | [_] => false
  | a :: b :: rest => (a == '/' && b == '/') || hasDoubleSlash (b :: rest)

/-- Embeds one `strings.ReplaceAll(name, "//", "/")`: replace non-overlapping
occurrences of `"//"` by `"/"`, scanning left to right. -/
def replaceDoubleSlash : Str → Str
  | [] => []
  | [c] => [c]
  | a :: b :: rest =>
    if a == '/' && b == '/' then '/' :: replaceDoubleSlash rest
    else a :: replaceDoubleSlash (b :: rest)

/-- One fuelled unrolling of the loop
`for strings.Contains(name, "//") { name = ReplaceAll(...) }`.  Each iteration
strictly shrinks the string (`replaceDoubleSlash_length_lt`), so `s.length`
units of fuel always reach the loop's exit condition
(`collapseGo_hasDoubleSlash`). -/
def collapseGo : Nat → Str → Str
  | 0, s => s
  | fuel + 1, s => if hasDoubleSlash s then collapseGo fuel (replaceDoubleSlash s) else s

/-- Embeds the loop `for strings.Contains(name, "//") { name = ReplaceAll(...) }`. -/
def collapseSlashes (s : Str) : Str := collapseGo s.length s

/-- Embeds `cleanResourceName` from arn_builder.go: trim leading/trailing
slashes, then collapse runs of slashes until none remain. -/
def cleanResourceName (s : Str) : Str :=
  collapseSlashes (trimSlashes s)

/-! ## arn_builder.go: resource types and ARN construction -/

/-- Embeds the `ResourceType` struct from arn_builder.go. -/
structure ResourceType where
  service : Str
  rtype : Str
  arnPattern : Str
deriving DecidableEq

def AthenaWorkgroup : ResourceType :=
  { service := "athena".toList, rtype := "workgroup".toList,
    arnPattern := "arn:aws:athena:%s:%s:workgroup/%s".toList }

def AthenaCatalog : ResourceType :=
  { service := "athena".toList, rtype := "datacatalog".toList,
    arnPattern := "arn:aws:athena:%s:%s:datacatalog/%s".toList }

def GlueCrawler : ResourceType :=
  { service := "glue".toList, rtype := "crawler".toList,
    arnPattern := "arn:aws:glue:%s:%s:crawler/%s".toList }

/-- The fields of the `AWSResourceTagger` struct that the embedded code reads:
the canonical TagSet, the account id and the region (the Go struct also holds
`ctx`, `cfg` and a precomputed `awsTags`; `cfg.Region` and `region` are both
set from the same CLI region at construction). -/
structure AWSResourceTagger where
  tags : List (Str × Str)
  accountID : Str
  region : Str

/-- Embeds `fmt.Sprintf` for the `%s`-only ARN patterns: a single left-to-right
scan substituting one argument per `%s` verb. -/
def gformat : Str → List Str → Str
  | [], _ => []
  | '%' :: 's' :: rest, a :: args => a ++ gformat rest args
  | '%' :: 's' :: rest, [] => '%' :: 's' :: gformat rest []
  | c :: rest, args => c :: gformat rest args

/-- Embeds `buildARN` from arn_builder.go. -/
def buildARN (t : AWSResourceTagger) (resourceType : ResourceType)
    (resourceName : Str) : Str :=
  gformat resourceType.arnPattern [t.region, t.accountID, cleanResourceName resourceName]

/-- Embeds `buildCompoundARN` from arn_builder.go: clean each part, drop parts
that clean to empty, join with "/", delegate to `buildARN`. -/
def buildCompoundARN (t : AWSResourceTagger) (resourceType : ResourceType)
    (parts : List Str) : Str :=
  buildARN t resourceType
    (List.intercalate ['/'] ((parts.map cleanResourceName).filter (fun p => p != [])))

/-! ## internal errors (part_008): handleError -/

/-- A Go error value as `handleError` can observe it: either
`errors.As(err, &ae)` succeeds for a `smithy.APIError` carrying an error code,
or it fails. `msg` is what the `%v` verb renders. -/
inductive GoError where
  | api (code : Str) (msg : Str)
  | plain (msg : Str)
deriving DecidableEq

/-- Go's rendering of the error by the `%v` verb. -/
def GoError.render : GoError → Str
  | .api _ msg => msg
  | .plain msg => msg

/-- The log line of the access-denied branch of `handleError`. -/
def accessDeniedLog (service resourceID : Str) : Str :=
  "Access denied while tagging ".toList ++ service ++ " resource ".toList ++ resourceID

/-- The log line of the not-found branch of `handleError`. -/
def notFoundLog (resourceID service : Str) : Str :=
  "Resource ".toList ++ resourceID ++ " not found in ".toList ++ service

/-- The generic log line of `handleError`, including the rendered raw error. -/
def genericTagErrorLog (service resourceID rendered : Str) : Str :=
  "Error tagging ".toList ++ service ++ " resource ".toList ++ resourceID ++ ": ".toList
    ++ rendered

/-- Embeds `handleError` from the shared tagger file: a total function from the
observed error to the single log line it prints (it changes nothing else and
returns nothing). -/
def handleError (err : GoError) (resourceID service : Str) : Str :=
  match err with
  | .api code _ =>
    if code = "AccessDenied".toList then accessDeniedLog service resourceID
    else if code = "ResourceNotFoundException".toList then notFoundLog resourceID service
    else genericTagErrorLog service resourceID err.render
  | .plain _ => genericTagErrorLog service resourceID err.render

/-! ## tag converters (athena.go, s3.go, glue.go) -/

/-- An `athenatypes.Tag`. -/
structure AthenaTag where
  key : Str
  value : Str
deriving DecidableEq

/-- Embeds `convertToAthenaTags`: one Athena tag per TagSet entry, appended to
a slice created with `make(..., 0, len(t.tags))`. -/
def convertToAthenaTags (t : AWSResourceTagger) : List AthenaTag :=
  t.tags.map (fun p => { key := p.1, value := p.2 })

/-- An `s3types.Tag`. -/
structure S3Tag where
  key : Str
  value : Str
deriving DecidableEq

/-- Embeds `convertToS3Tags` from s3.go. -/
def convertToS3Tags (tags : List (Str × Str)) : List S3Tag :=
  tags.map (fun p => { key := p.1, value := p.2 })

/-- Embeds `convertToGlueTags` from glue.go: the canonical map itself. -/
def convertToGlueTags (t : AWSResourceTagger) : List (Str × Str) :=
  t.tags

/-! ## athena.go: validateTags and the Athena service pass -/

/-- Embeds `validateTags` from athena.go; `true` iff the Go function returns a
non-nil error (more than 50 tags, a key with the reserved "aws:" prefix, a key
length outside 1..128, or a value longer than 256). -/
def validateTags (t : AWSResourceTagger) : Bool :=
  decide (t.tags.length > 50) ||
    t.tags.any (fun p =>
      (p.1.take ("aws:".toList).length == "aws:".toList) ||
        decide (p.1.length < 1) || decide (p.1.length > 128) ||
        decide (p.2.length > 256))

/-- A remote Athena API call, as recorded in a pass's call trace. -/
inductive AthenaCall where
  | listWorkGroups
  | listDataCatalogs
  | tagResource (arn : Str)
deriving DecidableEq

/-- Embeds the paginated loop of `tagAthenaWorkgroups` over the successive
`ListWorkGroups` pages the client returns: one listing call per page, then one
`TagResource` call per workgroup except the one literally named "primary"
(tag failures are logged and skipped, leaving the trace unchanged). -/
def tagAthenaWorkgroups (t : AWSResourceTagger) : List (List Str) → List AthenaCall
  | [] => []
  | page :: rest =>
    AthenaCall.listWorkGroups ::
      ((page.filter (fun wg => wg != "primary".toList)).map
        (fun wg => AthenaCall.tagResource (buildCompoundARN t AthenaWorkgroup [wg])) ++
        tagAthenaWorkgroups t rest)

/-- Embeds the paginated loop of `tagAthenaDataCatalogs`: one listing call per
page, then one `TagResource` call per catalog — the source removed the
`AwsDataCatalog` skip condition, so no catalog is excluded. -/
def tagAthenaDataCatalogs (t : AWSResourceTagger) : List (List Str) → List AthenaCall
  | [] => []
  | page :: rest =>
    AthenaCall.listDataCatalogs ::
      (page.map
        (fun c => AthenaCall.tagResource (buildCompoundARN t AthenaCatalog [c])) ++
        tagAthenaDataCatalogs t rest)

/-- The Athena listing backend: the pages of workgroup names and of catalog
names that successive listing calls return (the last page carries no
continuation token). -/
structure AthenaEnv where
  workgroupPages : List (List Str)
  catalogPages : List (List Str)

/-- Embeds `tagAthenaResourcesWithClient` from athena.go as the trace of remote
calls it makes: validate the TagSet (skipping the whole pass on violation),
then tag workgroups, then data catalogs. -/
def tagAthenaResourcesWithClient (t : AWSResourceTagger) (env : AthenaEnv) :
    List AthenaCall :=
  if validateTags t then []
  else
    tagAthenaWorkgroups t env.workgroupPages ++ tagAthenaDataCatalogs t env.catalogPages

/-! ## cloudwatch.go: the CloudWatch service pass -/

/-- A remote CloudWatch API call. -/
inductive CloudWatchCall where
  | describeAlarms
  | listDashboards
  | tagResource (arn : Str)
deriving DecidableEq

/-- The CloudWatch listing backend: pages of alarm ARNs and dashboard ARNs. -/
structure CloudWatchEnv where
  alarmPages : List (List Str)
  dashboardPages : List (List Str)

/-- The paginated DescribeAlarms loop of `tagCloudWatchResourcesWithClient`. -/
def cwAlarmCalls (pages : List (List Str)) : List CloudWatchCall :=
  match pages with
  | [] => []
  | page :: rest =>
    CloudWatchCall.describeAlarms ::
      (page.map CloudWatchCall.tagResource ++ cwAlarmCalls rest)

/-- The paginated ListDashboards loop of `tagCloudWatchResourcesWithClient`. -/
def cwDashboardCalls (pages : List (List Str)) : List CloudWatchCall :=
  match pages with
  | [] => []
  | page :: rest =>
    CloudWatchCall.listDashboards ::
      (page.map CloudWatchCall.tagResource ++ cwDashboardCalls rest)

/-- Embeds `tagCloudWatchResourcesWithClient` from cloudwatch.go as its remote
call trace: an empty TagSet short-circuits the pass before any listing call;
otherwise alarms are described and tagged page by page, then dashboards
(failed tag calls only affect the logged counters, not the trace). -/
def tagCloudWatchResourcesWithClient (t : AWSResourceTagger) (env : CloudWatchEnv) :
    List CloudWatchCall :=
  if t.tags.length == 0 then []
  else cwAlarmCalls env.alarmPages ++ cwDashboardCalls env.dashboardPages

/-! ## glue.go (part_001): the Glue crawler pass -/

/-- The bit pattern of Go's conversion `int32(n)` of a non-negative count
`n`: a natural number below 2^32 = 4294967296 (a pattern `v` denotes the
signed int32 value `v` when `v < 2^31`, else `v - 2^32`). -/
def int32Of (n : Nat) : Nat := n % 4294967296

/-- Embeds `atomic.AddInt32` on int32 bit patterns: 32-bit wrapping
addition. -/
def addInt32 (a b : Nat) : Nat := (a + b) % 4294967296

/-- Embeds the `GlueMetrics` struct: `int32` counters stored as their 32-bit
bit patterns (naturals below 2^32, updated with `addInt32`), all initially
zero. -/
structure GlueMetrics where
  databasesFound : Nat := 0
  databasesTagged : Nat := 0
  databasesFailed : Nat := 0
  connectionsFound : Nat := 0
  connectionsTagged : Nat := 0
  connectionsFailed : Nat := 0
  jobsFound : Nat := 0
  jobsTagged : Nat := 0
  jobsFailed : Nat := 0
  crawlersFound : Nat := 0
  crawlersTagged : Nat := 0
  crawlersFailed : Nat := 0
deriving DecidableEq

/-- The Glue backend: the successive GetCrawlers pages (crawler names) and
whether a TagResource call on a given ARN succeeds. -/
structure GlueEnv where
  crawlerPages : List (List Str)
  tagOk : Str → Bool

/-- Embeds one iteration of the crawler loop body: `tagCrawler` builds the
crawler's compound ARN and attempts `TagResource`; on error the failed counter
is bumped and the loop continues, on success the tagged counter.  The second
component records the ARNs of the attempted TagResource calls, in order. -/
def tagCrawlerStep (t : AWSResourceTagger) (env : GlueEnv)
    (acc : GlueMetrics × List Str) (name : Str) : GlueMetrics × List Str :=
  let arn := buildCompoundARN t GlueCrawler [name]
  if env.tagOk arn then
    ({ acc.1 with crawlersTagged := addInt32 acc.1.crawlersTagged 1 }, acc.2 ++ [arn])
  else
    ({ acc.1 with crawlersFailed := addInt32 acc.1.crawlersFailed 1 }, acc.2 ++ [arn])

/-- The paginated GetCrawlers loop of `tagGlueCrawlers`: per page, add
`int32(len(page))` to CrawlersFound with a wrapping atomic add, then process
each crawler of the page in order; continue while a continuation token
remains. -/
def tagGlueCrawlersLoop (t : AWSResourceTagger) (env : GlueEnv) :
    List (List Str) → GlueMetrics × List Str → GlueMetrics × List Str
  | [], acc => acc
  | page :: rest, acc =>
    tagGlueCrawlersLoop t env rest
      (page.foldl (tagCrawlerStep t env)
        ({ acc.1 with
            crawlersFound := addInt32 acc.1.crawlersFound (int32Of page.length) }, acc.2))

/-- Embeds `tagGlueCrawlers` from the Glue file: the final metrics and the
ordered trace of attempted TagResource ARNs. -/
def tagGlueCrawlers (t : AWSResourceTagger) (env : GlueEnv) : GlueMetrics × List Str :=
  tagGlueCrawlersLoop t env env.crawlerPages ({}, [])

/-! ## main.go: CLI tag validation, parsing and TagSet assembly -/

namespace Cli

/-- The whitespace characters `strings.TrimSpace` trims (Go also trims the
rarer Unicode space runes, which no embedded string contains). -/
def isSpaceChar (c : Char) : Bool :=
  c == ' ' || c == '\t' || c == '\n' || c == '\x0b' || c == '\x0c' || c == '\r'

/-- Embeds `strings.TrimSpace`. -/
def trimSpace (s : Str) : Str :=
  ((s.dropWhile isSpaceChar).reverse.dropWhile isSpaceChar).reverse

/-- Embeds `strings.SplitN(pair, ":", 2)`: the part before the first ':' and,
when a ':' occurs, the part after it (`none` = the split has only one part). -/
def splitN2 : Str → Str × Option Str
  | [] => ([], none)
  | c :: rest =>
    if c = ':' then ([], some rest)
    else
      let r := splitN2 rest
      (c :: r.1, r.2)

/-- Embeds `validateTags` from main.go; `true` iff the Go function returns a
non-nil error (empty tags string, a pair without ':', an empty trimmed key, or
an empty trimmed value). -/
def validateTags (s : Str) : Bool :=
  s == [] ||
    (s.splitOn ',').any (fun pair =>
      match splitN2 pair with
      | (_, none) => true
      | (k, some v) => trimSpace k == [] || trimSpace v == [])

/-- Embeds the Go map assignment `m[k] = v`: replace any existing binding of
`k`, otherwise add one. -/
def mapInsert (m : List (Str × Str)) (k v : Str) : List (Str × Str) :=
  m.filter (fun p => p.1 != k) ++ [(k, v)]

/-- Embeds the Go map lookup `m[k]`. -/
def mapGet (m : List (Str × Str)) (k : Str) : Option Str :=
  (m.find? (fun p => p.1 == k)).map (fun p => p.2)

/-- One iteration of the `parseCustomTags` loop body: split the pair at its
first ':' and store the trimmed key/value in the map; `none` models the
out-of-range panic at `parts[1]` when the pair contains no ':'. -/
def parseStep (acc : Option (List (Str × Str))) (pair : Str) :
    Option (List (Str × Str)) :=
  acc.bind (fun m =>
    match splitN2 pair with
    | (k, some v) => some (mapInsert m (trimSpace k) (trimSpace v))
    | (_, none) => none)

/-- Embeds `parseCustomTags` from main.go. -/
def parseCustomTags (s : Str) : Option (List (Str × Str)) :=
  (s.splitOn ',').foldl parseStep (some [])

/-- Embeds the constant `defaultTagValue = "mig12345"`. -/
def defaultTagValue : Str := "mig12345".toList

/-- Embeds the constant `defaultTagKey = "map-migrated"`. -/
def defaultTagKey : Str := "map-migrated".toList

/-- Embeds the package-level `var mapTags = map[string]string{}` — the empty
map, exactly as in the source. -/
def mapTags : List (Str × Str) := []

/-- Embeds main's TagSet assembly: `allTags` starts empty, `mapTags` is copied
in, then the parsed custom tags are merged over it.  `mapKeyValue` mirrors the
parsed `--map-migrated` flag value, which `main` never reads. -/
def mainAllTags (mapKeyValue : Str) (tagsStr : Str) : Option (List (Str × Str)) :=
  (parseCustomTags tagsStr).map (fun customTags =>
    customTags.foldl (fun acc p => mapInsert acc p.1 p.2)
      (mapTags.foldl (fun acc p => mapInsert acc p.1 p.2) []))

end Cli

/-- Distinguishes the apply-tags calls of an Athena trace from listing calls. -/
def AthenaCall.isTag : AthenaCall → Bool
  | .tagResource _ => true
  | _ => false

/-- The trimmed key/value a CLI pair contributes to the parsed tag map. -/
def Cli.pairKV (pair : Str) : Str × Str :=
  (Cli.trimSpace (Cli.splitN2 pair).1, Cli.trimSpace ((Cli.splitN2 pair).2.getD []))

/-- The binding the last occurrence of key `k` establishes in a sequence of
Go map assignments. -/
def Cli.lookupLast (kvs : List (Str × Str)) (k : Str) : Option Str :=
  (kvs.reverse.find? (fun p => p.1 == k)).map (fun p => p.2)

/-- A concrete run context used by witness evaluations. -/
def sampleTagger : AWSResourceTagger :=
  { tags := [("env".toList, "prod".toList)],
    accountID := "123456789012".toList, region := "us-east-1".toList }

/-- A run context with an empty TagSet, used by witness evaluations. -/
def emptyTagger : AWSResourceTagger :=
  { tags := [], accountID := "123456789012".toList, region := "us-east-1".toList }

/-- A concrete Glue backend used by witness evaluations: three crawlers over
two pages; tagging fails exactly for crawler "c2". -/
def sampleGlueEnv : GlueEnv :=
  { crawlerPages := [["c1".toList], ["c2".toList, "c3".toList]],
    tagOk := fun arn => arn != buildCompoundARN sampleTagger GlueCrawler ["c2".toList] }

/-! ## Theorems -/

theorem replaceDoubleSlash_length_le : ∀ s : Str, (replaceDoubleSlash s).length ≤ s.length
  | [] => by simp [replaceDoubleSlash]
  | [c] => by simp [replaceDoubleSlash]
  | a :: b :: rest => by
    simp only [replaceDoubleSlash]
    split
    · have := replaceDoubleSlash_length_le rest
      simp only [List.length_cons]
      omega
    · have := replaceDoubleSlash_length_le (b :: rest)
      simp only [List.length_cons] at *
      omega

theorem replaceDoubleSlash_length_lt :
    ∀ s : Str, hasDoubleSlash s = true → (replaceDoubleSlash s).length < s.length
  | [], h => by simp [hasDoubleSlash] at h
  | [c], h => by simp [hasDoubleSlash] at h
  | a :: b :: rest, h => by
    simp only [replaceDoubleSlash]
    split
    · have := replaceDoubleSlash_length_le rest
      simp only [List.length_cons]
      omega
    · rename_i hab
      simp only [hasDoubleSlash, Bool.or_eq_true] at h
      rcases h with h | h
      · exact absurd h hab
      · have := replaceDoubleSlash_length_lt (b :: rest) h
        simp only [List.length_cons] at *
        omega

/-! ### Properties of cleanResourceName -/

theorem replaceDoubleSlash_ne_nil : ∀ s : Str, s ≠ [] → replaceDoubleSlash s ≠ []
  | [], h => absurd rfl h
  | [c], _ => by simp [replaceDoubleSlash]
  | a :: b :: rest, _ => by
    simp only [replaceDoubleSlash]
    split <;> simp

theorem replaceDoubleSlash_head? : ∀ s : Str, (replaceDoubleSlash s).head? = s.head?
  | [] => rfl
  | [c] => rfl
  | a :: b :: rest => by
    simp only [replaceDoubleSlash]
    split
    · rename_i hab
      simp only [Bool.and_eq_true, beq_iff_eq] at hab
      simp [hab.1]
    · simp

theorem getLast?_cons_of_ne_nil (x : Char) {l : Str} (h : l ≠ []) :
    (x :: l).getLast? = l.getLast? := by
  cases l with
  | nil => exact absurd rfl h
  | cons b bs => exact List.getLast?_cons_cons

theorem replaceDoubleSlash_getLast? : ∀ s : Str, (replaceDoubleSlash s).getLast? = s.getLast?
  | [] => rfl
  | [c] => rfl
  | a :: b :: rest => by
    simp only [replaceDoubleSlash]
    split
    · rename_i hab
      simp only [Bool.and_eq_true, beq_iff_eq] at hab
      cases rest with
      | nil => simp [replaceDoubleSlash, hab.2]
      | cons c cs =>
        rw [getLast?_cons_of_ne_nil _ (replaceDoubleSlash_ne_nil (c :: cs) (by simp)),
          replaceDoubleSlash_getLast? (c :: cs), List.getLast?_cons_cons,
          List.getLast?_cons_cons]
    · rw [getLast?_cons_of_ne_nil _ (replaceDoubleSlash_ne_nil (b :: rest) (by simp)),
        replaceDoubleSlash_getLast? (b :: rest), List.getLast?_cons_cons]

theorem collapseGo_hasDoubleSlash : ∀ (fuel : Nat) (s : Str), s.length ≤ fuel →
    hasDoubleSlash (collapseGo fuel s) = false
  | 0, s, h => by
    have : s = [] := List.length_eq_zero.mp (Nat.le_zero.mp h)
    subst this
    rfl
  | fuel + 1, s, h => by
    cases hds : hasDoubleSlash s with
    | false => simp [collapseGo, hds]
    | true =>
      simp only [collapseGo, hds, if_true]
      exact collapseGo_hasDoubleSlash fuel (replaceDoubleSlash s)
        (by have := replaceDoubleSlash_length_lt s hds; omega)

theorem collapseGo_head? : ∀ (fuel : Nat) (s : Str), (collapseGo fuel s).head? = s.head?
  | 0, _ => rfl
  | fuel + 1, s => by
    cases hds : hasDoubleSlash s with
    | false => simp [collapseGo, hds]
    | true =>
      simp [collapseGo, hds, collapseGo_head? fuel (replaceDoubleSlash s),
        replaceDoubleSlash_head?]

theorem collapseGo_getLast? : ∀ (fuel : Nat) (s : Str), (collapseGo fuel s).getLast? = s.getLast?
  | 0, _ => rfl
  | fuel + 1, s => by
    cases hds : hasDoubleSlash s with
    | false => simp [collapseGo, hds]
    | true =>
      simp [collapseGo, hds, collapseGo_getLast? fuel (replaceDoubleSlash s),
        replaceDoubleSlash_getLast?]

theorem collapseGo_eq_self : ∀ (fuel : Nat) (s : Str), hasDoubleSlash s = false →
    collapseGo fuel s = s
  | 0, _, _ => rfl
  | fuel + 1, s, hds => by simp [collapseGo, hds]

theorem collapseSlashes_hasDoubleSlash (s : Str) :
    hasDoubleSlash (collapseSlashes s) = false :=
  collapseGo_hasDoubleSlash s.length s le_rfl

theorem collapseSlashes_head? (s : Str) : (collapseSlashes s).head? = s.head? :=
  collapseGo_head? s.length s

theorem collapseSlashes_getLast? (s : Str) : (collapseSlashes s).getLast? = s.getLast? :=
  collapseGo_getLast? s.length s

theorem head?_dropWhile_ne (p : Char → Bool) :
    ∀ (l : Str) (a : Char), (l.dropWhile p).head? = some a → p a = false
  | [], a, h => by simp [List.dropWhile] at h
  | x :: xs, a, h => by
    rw [List.dropWhile_cons] at h
    split at h
    · exact head?_dropWhile_ne p xs a h
    · rename_i hx
      simp only [List.head?_cons, Option.some.injEq] at h
      subst h
      exact Bool.not_eq_true _ ▸ hx

theorem getLast?_dropWhile_of_ne_nil (p : Char → Bool) :
    ∀ l : Str, l.dropWhile p ≠ [] → (l.dropWhile p).getLast? = l.getLast?
  | [], h => absurd rfl h
  | x :: xs, h => by
    by_cases hx : p x = true
    · rw [List.dropWhile_cons, if_pos hx] at h ⊢
      have hxs : xs ≠ [] := by
        intro hn
        subst hn
        simp [List.dropWhile] at h
      rw [getLast?_dropWhile_of_ne_nil p xs h, getLast?_cons_of_ne_nil x hxs]
    · rw [List.dropWhile_cons, if_neg hx]

theorem trimSlashes_head? (s : Str) : trimSlashes s ≠ [] →
    ∃ a, (trimSlashes s).head? = some a ∧ a ≠ '/' := by
  intro hne
  unfold trimSlashes at hne ⊢
  rw [List.head?_reverse]
  set u := s.dropWhile (fun c => c == '/') with hu
  set v := u.reverse.dropWhile (fun c => c == '/') with hv
  have hvne : v ≠ [] := fun h => hne (by rw [h]; rfl)
  have hune : u.reverse ≠ [] := by
    intro h
    apply hvne
    rw [hv, h]
    exact List.dropWhile_nil
  rw [getLast?_dropWhile_of_ne_nil _ _ hvne, List.getLast?_reverse]
  cases hc : u.head? with
  | none =>
    rw [List.head?_eq_none_iff] at hc
    rw [hc] at hune
    simp at hune
  | some a =>
    refine ⟨a, rfl, ?_⟩
    rw [hu] at hc
    have := head?_dropWhile_ne _ s a hc
    exact beq_eq_false_iff_ne.mp this

theorem trimSlashes_getLast? (s : Str) : trimSlashes s ≠ [] →
    ∃ a, (trimSlashes s).getLast? = some a ∧ a ≠ '/' := by
  intro hne
  unfold trimSlashes at hne ⊢
  rw [List.getLast?_reverse]
  set u := s.dropWhile (fun c => c == '/') with hu
  set v := u.reverse.dropWhile (fun c => c == '/') with hv
  have hvne : v ≠ [] := fun h => hne (by rw [h]; rfl)
  cases hc : v.head? with
  | none => exact absurd (List.head?_eq_none_iff.mp hc) hvne
  | some a =>
    refine ⟨a, rfl, ?_⟩
    rw [hv] at hc
    have := head?_dropWhile_ne _ _ a hc
    exact beq_eq_false_iff_ne.mp this

theorem dropWhile_eq_self_of_head? (p : Char → Bool) (l : Str)
    (h : ∀ a, l.head? = some a → p a = false) : l.dropWhile p = l := by
  cases l with
  | nil => rfl
  | cons x xs =>
    rw [List.dropWhile_cons, if_neg]
    simp [h x rfl]

/-- The cleaned name never begins with the separator. -/
theorem cleanResourceName_head? (s : Str) : (cleanResourceName s).head? ≠ some '/' := by
  unfold cleanResourceName
  rw [collapseSlashes_head?]
  intro h
  have hne : trimSlashes s ≠ [] := by
    intro hn
    rw [hn] at h
    exact Option.noConfusion h
  obtain ⟨a, ha, hna⟩ := trimSlashes_head? s hne
  rw [ha] at h
  exact hna (Option.some.inj h)

/-- The cleaned name never ends with the separator. -/
theorem cleanResourceName_getLast? (s : Str) : (cleanResourceName s).getLast? ≠ some '/' := by
  unfold cleanResourceName
  rw [collapseSlashes_getLast?]
  intro h
  have hne : trimSlashes s ≠ [] := by
    intro hn
    rw [hn] at h
    exact Option.noConfusion h
  obtain ⟨a, ha, hna⟩ := trimSlashes_getLast? s hne
  rw [ha] at h
  exact hna (Option.some.inj h)

/-- The cleaned name never contains two consecutive separators. -/
theorem cleanResourceName_noDoubleSlash (s : Str) :
    hasDoubleSlash (cleanResourceName s) = false :=
  collapseSlashes_hasDoubleSlash _

theorem trimSlashes_eq_self {l : Str} (h1 : l.head? ≠ some '/')
    (h2 : l.getLast? ≠ some '/') : trimSlashes l = l := by
  have hA : l.dropWhile (fun c => c == '/') = l :=
    dropWhile_eq_self_of_head? _ l (fun a ha => by
      rw [ha] at h1
      exact beq_eq_false_iff_ne.mpr (fun hh => h1 (by rw [hh])))
  have hB : l.reverse.dropWhile (fun c => c == '/') = l.reverse :=
    dropWhile_eq_self_of_head? _ l.reverse (fun a ha => by
      rw [List.head?_reverse] at ha
      rw [ha] at h2
      exact beq_eq_false_iff_ne.mpr (fun hh => h2 (by rw [hh])))
  unfold trimSlashes
  rw [hA, hB, List.reverse_reverse]

/-- `cleanResourceName` is idempotent. -/
theorem cleanResourceName_idem (s : Str) :
    cleanResourceName (cleanResourceName s) = cleanResourceName s := by
  show collapseSlashes (trimSlashes (cleanResourceName s)) = cleanResourceName s
  rw [trimSlashes_eq_self (cleanResourceName_head? s) (cleanResourceName_getLast? s)]
  exact collapseGo_eq_self _ _ (cleanResourceName_noDoubleSlash s)

/-! ## Claim theorems -/

theorem cleanResourceName_nil : cleanResourceName [] = [] := rfl

/-- C6: `cleanResourceName` is idempotent, and its result never starts with the
separator '/', never ends with it, and never contains two consecutive
separators (so every run of repeated separators in the input has collapsed to
a single one). -/
theorem cleanResourceName_spec (x : Str) :
    cleanResourceName (cleanResourceName x) = cleanResourceName x ∧
    (cleanResourceName x).head? ≠ some '/' ∧
    (cleanResourceName x).getLast? ≠ some '/' ∧
    hasDoubleSlash (cleanResourceName x) = false :=
  ⟨cleanResourceName_idem x, cleanResourceName_head? x, cleanResourceName_getLast? x,
    cleanResourceName_noDoubleSlash x⟩

/-- Witness for C6 at the concrete name "//a///b//". -/
theorem cleanResourceName_spec_witness :
    cleanResourceName (cleanResourceName "//a///b//".toList) =
      cleanResourceName "//a///b//".toList ∧
    hasDoubleSlash (cleanResourceName "//a///b//".toList) = false :=
  ⟨(cleanResourceName_spec "//a///b//".toList).1,
    (cleanResourceName_spec "//a///b//".toList).2.2.2⟩

theorem intercalate_slash_singleton (l : Str) : List.intercalate ['/'] [l] = l := by
  simp [List.intercalate]

theorem cleanResourceName_all_slash {e : Str} (h : ∀ c ∈ e, c = '/') :
    cleanResourceName e = [] := by
  have hd : e.dropWhile (fun c => c == '/') = [] :=
    List.dropWhile_eq_nil_iff.mpr (fun x hx => by simp [h x hx])
  unfold cleanResourceName trimSlashes
  rw [hd]
  rfl

theorem buildCompoundARN_pair (t : AWSResourceTagger) (rt : ResourceType) (n : Str) :
    buildCompoundARN t rt [[], n] = buildARN t rt n := by
  unfold buildCompoundARN
  by_cases h : cleanResourceName n = []
  · simp [cleanResourceName_nil, h, buildARN, List.intercalate]
  · simp only [List.map_cons, List.map_nil, cleanResourceName_nil]
    rw [show (([[], cleanResourceName n] : List Str).filter (fun p => p != [])) =
        [cleanResourceName n] by simp [List.filter, bne_iff_ne.mpr h]]
    rw [intercalate_slash_singleton]
    unfold buildARN
    rw [cleanResourceName_idem]

theorem buildCompoundARN_drop (t : AWSResourceTagger) (rt : ResourceType)
    (ps1 ps2 : List Str) (e : Str) (h : ∀ c ∈ e, c = '/') :
    buildCompoundARN t rt (ps1 ++ e :: ps2) = buildCompoundARN t rt (ps1 ++ ps2) := by
  unfold buildCompoundARN
  rw [List.map_append, List.map_cons, List.map_append,
    List.filter_append, List.filter_append, List.filter_cons,
    cleanResourceName_all_slash h]
  simp

/-- C7: `buildCompoundARN` cleans each part, drops parts that clean to empty
and joins the rest with a single '/': `buildCompoundARN t rt ["", n]` equals
`buildARN t rt n`, and inserting an empty or all-separator part anywhere in
the argument list never changes the resulting ARN. -/
theorem buildCompoundARN_spec :
    (∀ (t : AWSResourceTagger) (rt : ResourceType) (n : Str),
      buildCompoundARN t rt [[], n] = buildARN t rt n) ∧
    (∀ (t : AWSResourceTagger) (rt : ResourceType) (ps1 ps2 : List Str) (e : Str),
      (∀ c ∈ e, c = '/') →
      buildCompoundARN t rt (ps1 ++ e :: ps2) = buildCompoundARN t rt (ps1 ++ ps2)) :=
  ⟨buildCompoundARN_pair, buildCompoundARN_drop⟩

/-- Witness for C7: dropping the empty part before "mytable", and dropping an
all-separator part between "db" and "tbl", at a concrete run context. -/
theorem buildCompoundARN_spec_witness :
    buildCompoundARN sampleTagger GlueCrawler [[], "mytable".toList] =
      buildARN sampleTagger GlueCrawler "mytable".toList ∧
    buildCompoundARN sampleTagger GlueCrawler
        (["db".toList] ++ "//".toList :: ["tbl".toList]) =
      buildCompoundARN sampleTagger GlueCrawler (["db".toList] ++ ["tbl".toList]) :=
  ⟨buildCompoundARN_spec.1 sampleTagger GlueCrawler "mytable".toList,
    buildCompoundARN_spec.2 sampleTagger GlueCrawler ["db".toList] ["tbl".toList]
      "//".toList (by decide)⟩

/-- C9: each tag converter is total and size-preserving: the list-shaped
converters return exactly one key/value pair per TagSet entry (the same
entries, in order), the map-shaped Glue converter returns the TagSet itself,
and an empty TagSet converts to an empty collection. -/
theorem tagConverters_spec (t : AWSResourceTagger) :
    (convertToAthenaTags t).length = t.tags.length ∧
    (convertToAthenaTags t).map (fun g => (g.key, g.value)) = t.tags ∧
    (convertToS3Tags t.tags).length = t.tags.length ∧
    (convertToS3Tags t.tags).map (fun g => (g.key, g.value)) = t.tags ∧
    (convertToGlueTags t).length = t.tags.length ∧
    convertToGlueTags t = t.tags ∧
    (t.tags = [] →
      convertToAthenaTags t = [] ∧ convertToS3Tags t.tags = [] ∧ convertToGlueTags t = []) := by
  refine ⟨by simp [convertToAthenaTags], ?_, by simp [convertToS3Tags], ?_, rfl, rfl, ?_⟩
  · have hc : ((fun g : AthenaTag => (g.key, g.value)) ∘
        fun p : Str × Str => ({ key := p.1, value := p.2 } : AthenaTag)) = id := by
      funext p
      rfl
    simp [convertToAthenaTags, List.map_map, hc]
  · have hc : ((fun g : S3Tag => (g.key, g.value)) ∘
        fun p : Str × Str => ({ key := p.1, value := p.2 } : S3Tag)) = id := by
      funext p
      rfl
    simp [convertToS3Tags, List.map_map, hc]
  · intro h
    simp [convertToAthenaTags, convertToS3Tags, convertToGlueTags, h]

/-- Witness for C9: converting the empty TagSet yields empty collections. -/
theorem tagConverters_spec_witness :
    convertToAthenaTags emptyTagger = [] ∧
    convertToS3Tags emptyTagger.tags = [] ∧
    convertToGlueTags emptyTagger = [] :=
  (tagConverters_spec emptyTagger).2.2.2.2.2.2 rfl

/-- C5: `handleError` is a total function of the observed error that only
produces a log line (no error propagates, the caller's state and control flow
are untouched): it emits the access-denied line exactly when structured
inspection sees an API error with code "AccessDenied", the not-found line
exactly when the code is "ResourceNotFoundException", and in every other case
the generic "Error tagging ... resource ..." line carrying the rendered raw
error. -/
theorem handleError_spec (err : GoError) (resourceID service : Str) :
    (handleError err resourceID service = accessDeniedLog service resourceID ↔
      ∃ m, err = GoError.api "AccessDenied".toList m) ∧
    (handleError err resourceID service = notFoundLog resourceID service ↔
      ∃ m, err = GoError.api "ResourceNotFoundException".toList m) ∧
    (∀ code m, err = GoError.api code m → code ≠ "AccessDenied".toList →
      code ≠ "ResourceNotFoundException".toList →
      handleError err resourceID service =
        genericTagErrorLog service resourceID err.render) ∧
    (∀ m, err = GoError.plain m →
      handleError err resourceID service =
        genericTagErrorLog service resourceID err.render) := by
  have hAD : (accessDeniedLog service resourceID).head? = some 'A' := rfl
  have hNF : (notFoundLog resourceID service).head? = some 'R' := rfl
  have hGE : ∀ m, (genericTagErrorLog service resourceID m).head? = some 'E' :=
    fun _ => rfl
  refine ⟨⟨?_, ?_⟩, ⟨?_, ?_⟩, ?_, ?_⟩
  · intro h
    cases err with
    | api code m =>
      by_cases h1 : code = "AccessDenied".toList
      · exact ⟨m, by rw [h1]⟩
      · exfalso
        by_cases h2 : code = "ResourceNotFoundException".toList
        · rw [show handleError (GoError.api code m) resourceID service =
              notFoundLog resourceID service by
            simp only [handleError]
            rw [if_neg h1, if_pos h2]] at h
          have hh := congrArg List.head? h
          rw [hNF, hAD] at hh
          exact absurd hh (by decide)
        · rw [show handleError (GoError.api code m) resourceID service =
              genericTagErrorLog service resourceID (GoError.api code m).render by
            simp only [handleError]
            rw [if_neg h1, if_neg h2]] at h
          have hh := congrArg List.head? h
          rw [hGE, hAD] at hh
          exact absurd hh (by decide)
    | plain m =>
      exfalso
      rw [show handleError (GoError.plain m) resourceID service =
          genericTagErrorLog service resourceID (GoError.plain m).render from rfl] at h
      have hh := congrArg List.head? h
      rw [hGE, hAD] at hh
      exact absurd hh (by decide)
  · rintro ⟨m, rfl⟩
    simp [handleError]
  · intro h
    cases err with
    | api code m =>
      by_cases h1 : code = "AccessDenied".toList
      · exfalso
        rw [show handleError (GoError.api code m) resourceID service =
            accessDeniedLog service resourceID by
          simp only [handleError]
          rw [if_pos h1]] at h
        have hh := congrArg List.head? h
        rw [hAD, hNF] at hh
        exact absurd hh (by decide)
      · by_cases h2 : code = "ResourceNotFoundException".toList
        · exact ⟨m, by rw [h2]⟩
        · exfalso
          rw [show handleError (GoError.api code m) resourceID service =
              genericTagErrorLog service resourceID (GoError.api code m).render by
            simp only [handleError]
            rw [if_neg h1, if_neg h2]] at h
          have hh := congrArg List.head? h
          rw [hGE, hNF] at hh
          exact absurd hh (by decide)
    | plain m =>
      exfalso
      rw [show handleError (GoError.plain m) resourceID service =
          genericTagErrorLog service resourceID (GoError.plain m).render from rfl] at h
      have hh := congrArg List.head? h
      rw [hGE, hNF] at hh
      exact absurd hh (by decide)
  · rintro ⟨m, rfl⟩
    simp [handleError]
  · rintro code m rfl h1 h2
    simp only [handleError]
    rw [if_neg h1, if_neg h2]
  · rintro m rfl
    rfl

/-- Witness for C5: concrete errors of each class produce the matching log
lines. -/
theorem handleError_spec_witness :
    handleError (GoError.api "AccessDenied".toList "denied".toList)
        "r1".toList "svc".toList = accessDeniedLog "svc".toList "r1".toList ∧
    handleError (GoError.plain "boom".toList) "r1".toList "svc".toList =
      genericTagErrorLog "svc".toList "r1".toList "boom".toList :=
  ⟨(handleError_spec (GoError.api "AccessDenied".toList "denied".toList)
      "r1".toList "svc".toList).1.mpr ⟨"denied".toList, rfl⟩,
    (handleError_spec (GoError.plain "boom".toList) "r1".toList "svc".toList).2.2.2
      "boom".toList rfl⟩

/-- C4: the Athena `validateTags` reports a violation exactly when the TagSet
has more than 50 entries, or some key starts with "aws:", or some key length
lies outside 1..128, or some value exceeds 256 characters; and on a violation
the Athena pass returns after logging, making no listing or tagging call. -/
theorem validateTags_spec (t : AWSResourceTagger) :
    (validateTags t = true ↔
      (50 < t.tags.length ∨ ∃ p ∈ t.tags,
        (p.1.take 4 = "aws:".toList ∨ p.1.length < 1 ∨ 128 < p.1.length ∨
          256 < p.2.length))) ∧
    (∀ env : AthenaEnv, validateTags t = true →
      tagAthenaResourcesWithClient t env = []) := by
  constructor
  · unfold validateTags
    simp [List.any_eq_true, or_assoc]
  · intro env hv
    simp [tagAthenaResourcesWithClient, hv]

/-- Witness for C4: a TagSet with an "aws:"-prefixed key is reported as a
violation and the Athena pass makes no remote call. -/
theorem validateTags_spec_witness :
    validateTags
      { tags := [("aws:env".toList, "x".toList)],
        accountID := "123456789012".toList, region := "us-east-1".toList } = true ∧
    tagAthenaResourcesWithClient
      { tags := [("aws:env".toList, "x".toList)],
        accountID := "123456789012".toList, region := "us-east-1".toList }
      { workgroupPages := [["wg1".toList]], catalogPages := [[]] } = [] :=
  ⟨(validateTags_spec _).1.mpr
      (Or.inr ⟨("aws:env".toList, "x".toList), by decide, Or.inl (by decide)⟩),
    (validateTags_spec _).2 _ (by decide)⟩

/-- C1 (evaluation at the failing input): with an empty TagSet the CloudWatch
pass short-circuits before any listing call, but the Athena entry point does
not — its tag validation accepts the empty TagSet and both listing calls are
still made. -/
theorem emptyTagSet_athena_still_lists :
    tagCloudWatchResourcesWithClient emptyTagger
      { alarmPages := [["arn:alarm-1".toList]], dashboardPages := [[]] } = [] ∧
    tagAthenaResourcesWithClient emptyTagger
      { workgroupPages := [[]], catalogPages := [[]] } =
      [AthenaCall.listWorkGroups, AthenaCall.listDataCatalogs] := by
  constructor
  · rfl
  · decide

/-- C2 (evaluation at the failing input): whatever value the `--map-migrated`
flag carries, main's assembled TagSet for `--tag env:prod` is exactly
`{env: prod}` — the package-level baseline map is empty and the flag's value
is never merged, so no "map-migrated" entry exists unless the user supplies
one via `--tag`. -/
theorem mainAllTags_no_baseline (mapKeyValue : Str) :
    Cli.mainAllTags mapKeyValue "env:prod".toList =
      some [("env".toList, "prod".toList)] ∧
    Cli.mapGet [("env".toList, "prod".toList)] Cli.defaultTagKey = none :=
  ⟨rfl, rfl⟩

/-- C8 counterexample: with a valid one-entry TagSet and a catalog listing
that returns the default "AwsDataCatalog", the Athena pass does issue a
TagResource call for it (built by the ARN builder) — the source removed the
AwsDataCatalog skip, so the claim's exclusion does not hold for catalogs. -/
theorem awsDataCatalog_tagged_counterexample :
    AthenaCall.tagResource
        (buildCompoundARN sampleTagger AthenaCatalog ["AwsDataCatalog".toList]) ∈
      tagAthenaResourcesWithClient sampleTagger
        { workgroupPages := [[]], catalogPages := [["AwsDataCatalog".toList]] } := by
  decide

theorem countTag_workgroups (t : AWSResourceTagger) :
    ∀ pages : List (List Str),
      (tagAthenaWorkgroups t pages).countP AthenaCall.isTag =
        ((pages.flatten).filter (fun wg => wg != "primary".toList)).length
  | [] => by simp [tagAthenaWorkgroups]
  | page :: rest => by
    have hcomp : (AthenaCall.isTag ∘ fun wg : Str =>
        AthenaCall.tagResource (buildCompoundARN t AthenaWorkgroup [wg])) =
          fun _ => true := by
      funext wg
      rfl
    simp only [tagAthenaWorkgroups, List.flatten_cons, List.countP_cons,
      List.countP_append, List.filter_append, List.length_append, List.countP_map,
      hcomp, List.countP_true]
    rw [countTag_workgroups t rest]
    simp [AthenaCall.isTag]

theorem countTag_catalogs (t : AWSResourceTagger) :
    ∀ pages : List (List Str),
      (tagAthenaDataCatalogs t pages).countP AthenaCall.isTag = (pages.flatten).length
  | [] => by simp [tagAthenaDataCatalogs]
  | page :: rest => by
    have hcomp : (AthenaCall.isTag ∘ fun c : Str =>
        AthenaCall.tagResource (buildCompoundARN t AthenaCatalog [c])) =
          fun _ => true := by
      funext c
      rfl
    simp only [tagAthenaDataCatalogs, List.flatten_cons, List.countP_cons,
      List.countP_append, List.length_append, List.countP_map, hcomp, List.countP_true]
    rw [countTag_catalogs t rest]
    simp [AthenaCall.isTag]

/-- C8 amended: in the Athena pass the workgroup literally named "primary" is
skipped before ARN construction and tagging — the workgroup phase makes
exactly one apply-tags call per non-"primary" listed name — but the default
"AwsDataCatalog" data catalog is not excluded: the catalog phase makes exactly
one apply-tags call per listed catalog, the default included (and the Athena
pass keeps no found/tagged/failed counters at all). -/
theorem athenaExclusion_spec (t : AWSResourceTagger) (wgPages catPages : List (List Str)) :
    (tagAthenaWorkgroups t wgPages).countP AthenaCall.isTag =
      ((wgPages.flatten).filter (fun wg => wg != "primary".toList)).length ∧
    (tagAthenaDataCatalogs t catPages).countP AthenaCall.isTag = (catPages.flatten).length :=
  ⟨countTag_workgroups t wgPages, countTag_catalogs t catPages⟩

theorem crawlerFold_spec (t : AWSResourceTagger) (env : GlueEnv) :
    ∀ (page : List Str) (acc : GlueMetrics × List Str),
      acc.1.crawlersTagged < 4294967296 → acc.1.crawlersFailed < 4294967296 →
      (page.foldl (tagCrawlerStep t env) acc).1.crawlersFound = acc.1.crawlersFound ∧
      (page.foldl (tagCrawlerStep t env) acc).1.crawlersTagged =
        (acc.1.crawlersTagged +
          (page.filter (fun n => env.tagOk (buildCompoundARN t GlueCrawler [n]))).length) %
          4294967296 ∧
      (page.foldl (tagCrawlerStep t env) acc).1.crawlersFailed =
        (acc.1.crawlersFailed +
          (page.filter (fun n => !env.tagOk (buildCompoundARN t GlueCrawler [n]))).length) %
          4294967296 ∧
      (page.foldl (tagCrawlerStep t env) acc).2 =
        acc.2 ++ page.map (fun n => buildCompoundARN t GlueCrawler [n])
  | [], acc, ht, hf => by
    refine ⟨rfl, ?_, ?_, by simp⟩
    · simp
      omega
    · simp
      omega
  | n :: page, acc, ht, hf => by
    by_cases hok : env.tagOk (buildCompoundARN t GlueCrawler [n]) = true
    · obtain ⟨ih1, ih2, ih3, ih4⟩ :=
        crawlerFold_spec t env page (tagCrawlerStep t env acc n)
          (by simp [tagCrawlerStep, hok, addInt32]; omega)
          (by simpa [tagCrawlerStep, hok] using hf)
      refine ⟨?_, ?_, ?_, ?_⟩
      · rw [List.foldl_cons, ih1]
        simp [tagCrawlerStep, hok]
      · rw [List.foldl_cons, ih2]
        simp [tagCrawlerStep, hok, addInt32, List.filter_cons]
        omega
      · rw [List.foldl_cons, ih3]
        simp [tagCrawlerStep, hok, List.filter_cons]
      · rw [List.foldl_cons, ih4]
        simp [tagCrawlerStep, hok]
    · replace hok : env.tagOk (buildCompoundARN t GlueCrawler [n]) = false :=
        Bool.not_eq_true _ ▸ hok
      obtain ⟨ih1, ih2, ih3, ih4⟩ :=
        crawlerFold_spec t env page (tagCrawlerStep t env acc n)
          (by simpa [tagCrawlerStep, hok] using ht)
          (by simp [tagCrawlerStep, hok, addInt32]; omega)
      refine ⟨?_, ?_, ?_, ?_⟩
      · rw [List.foldl_cons, ih1]
        simp [tagCrawlerStep, hok]
      · rw [List.foldl_cons, ih2]
        simp [tagCrawlerStep, hok, List.filter_cons]
      · rw [List.foldl_cons, ih3]
        simp [tagCrawlerStep, hok, addInt32, List.filter_cons]
        omega
      · rw [List.foldl_cons, ih4]
        simp [tagCrawlerStep, hok]

theorem crawlerLoop_spec (t : AWSResourceTagger) (env : GlueEnv) :
    ∀ (pages : List (List Str)) (acc : GlueMetrics × List Str),
      acc.1.crawlersFound < 4294967296 → acc.1.crawlersTagged < 4294967296 →
      acc.1.crawlersFailed < 4294967296 →
      (tagGlueCrawlersLoop t env pages acc).1.crawlersFound =
        (acc.1.crawlersFound + (pages.flatten).length) % 4294967296 ∧
      (tagGlueCrawlersLoop t env pages acc).1.crawlersTagged =
        (acc.1.crawlersTagged +
          ((pages.flatten).filter
            (fun n => env.tagOk (buildCompoundARN t GlueCrawler [n]))).length) %
          4294967296 ∧
      (tagGlueCrawlersLoop t env pages acc).1.crawlersFailed =
        (acc.1.crawlersFailed +
          ((pages.flatten).filter
            (fun n => !env.tagOk (buildCompoundARN t GlueCrawler [n]))).length) %
          4294967296 ∧
      (tagGlueCrawlersLoop t env pages acc).2 =
        acc.2 ++ (pages.flatten).map (fun n => buildCompoundARN t GlueCrawler [n])
  | [], acc, h1, h2, h3 => by
    refine ⟨?_, ?_, ?_, by simp [tagGlueCrawlersLoop]⟩ <;>
      simp [tagGlueCrawlersLoop] <;> omega
  | page :: rest, acc, h1, h2, h3 => by
    obtain ⟨f1, f2, f3, f4⟩ := crawlerFold_spec t env page
      ({ acc.1 with
          crawlersFound := addInt32 acc.1.crawlersFound (int32Of page.length) }, acc.2)
      (by simpa using h2) (by simpa using h3)
    obtain ⟨l1, l2, l3, l4⟩ := crawlerLoop_spec t env rest
      (page.foldl (tagCrawlerStep t env)
        ({ acc.1 with
            crawlersFound := addInt32 acc.1.crawlersFound (int32Of page.length) }, acc.2))
      (by rw [f1]; simp [addInt32]; omega)
      (by rw [f2]; omega)
      (by rw [f3]; omega)
    refine ⟨?_, ?_, ?_, ?_⟩
    · simp only [tagGlueCrawlersLoop]
      rw [l1, f1]
      simp [addInt32, int32Of, List.flatten_cons]
      omega
    · simp only [tagGlueCrawlersLoop]
      rw [l2, f2]
      simp [List.flatten_cons, List.filter_append]
      omega
    · simp only [tagGlueCrawlersLoop]
      rw [l3, f3]
      simp [List.flatten_cons, List.filter_append]
      omega
    · simp only [tagGlueCrawlersLoop]
      rw [l4, f4]
      simp [List.flatten_cons, List.map_append]

/-- C3: over any paginated crawler listing, `tagGlueCrawlers` attempts one
apply-tags call for every crawler across all pages exactly once and in order
(failures never prevent later attempts) — this holds unconditionally — and,
whenever the total crawler count K stays below 2^31 (so the wrapping `int32`
counters cannot overflow), the final metrics satisfy CrawlersFound = K,
CrawlersFailed = F (the number of crawlers whose apply-tags call fails) and
CrawlersTagged = K - F. -/
theorem tagGlueCrawlers_spec (t : AWSResourceTagger) (env : GlueEnv)
    (hK : (env.crawlerPages.flatten).length < 2147483648) :
    (tagGlueCrawlers t env).2 =
      (env.crawlerPages.flatten).map (fun n => buildCompoundARN t GlueCrawler [n]) ∧
    (tagGlueCrawlers t env).1.crawlersFound = (env.crawlerPages.flatten).length ∧
    (tagGlueCrawlers t env).1.crawlersFailed =
      ((env.crawlerPages.flatten).filter
        (fun n => !env.tagOk (buildCompoundARN t GlueCrawler [n]))).length ∧
    (tagGlueCrawlers t env).1.crawlersTagged =
      (env.crawlerPages.flatten).length - (tagGlueCrawlers t env).1.crawlersFailed := by
  obtain ⟨l1, l2, l3, l4⟩ := crawlerLoop_spec t env env.crawlerPages ({}, [])
    (by decide) (by decide) (by decide)
  have hsum := List.length_eq_length_filter_add (l := env.crawlerPages.flatten)
    (fun n => env.tagOk (buildCompoundARN t GlueCrawler [n]))
  have hfailLe := List.length_filter_le
    (fun n => !env.tagOk (buildCompoundARN t GlueCrawler [n])) (env.crawlerPages.flatten)
  have hokLe := List.length_filter_le
    (fun n => env.tagOk (buildCompoundARN t GlueCrawler [n])) (env.crawlerPages.flatten)
  unfold tagGlueCrawlers
  simp only [show (({} : GlueMetrics), ([] : List Str)).1.crawlersFound = 0 from rfl,
    show (({} : GlueMetrics), ([] : List Str)).1.crawlersTagged = 0 from rfl,
    show (({} : GlueMetrics), ([] : List Str)).1.crawlersFailed = 0 from rfl,
    Nat.zero_add] at l1 l2 l3
  refine ⟨by simpa using l4, ?_, ?_, ?_⟩
  · rw [l1]
    omega
  · rw [l3]
    omega
  · rw [l2, l3]
    omega

/-- Witness for C3 at a concrete backend: three crawlers over two pages with
one injected failure give Found = 3, Failed = 1, Tagged = 2. -/
theorem tagGlueCrawlers_spec_witness :
    (tagGlueCrawlers sampleTagger sampleGlueEnv).1.crawlersFound = 3 ∧
    (tagGlueCrawlers sampleTagger sampleGlueEnv).1.crawlersFailed = 1 ∧
    (tagGlueCrawlers sampleTagger sampleGlueEnv).1.crawlersTagged = 2 := by
  obtain ⟨-, h1, h2, h3⟩ := tagGlueCrawlers_spec sampleTagger sampleGlueEnv (by decide)
  refine ⟨?_, ?_, ?_⟩
  · rw [h1]
    decide
  · rw [h2]
    decide
  · rw [h3, h2]
    decide

theorem find?_filter_comm (q r : Str × Str → Bool)
    (h : ∀ a, q a = true → r a = true) :
    ∀ l : List (Str × Str), (l.filter r).find? q = l.find? q
  | [] => rfl
  | a :: l => by
    cases hr : r a with
    | true =>
      cases hq : q a with
      | true => simp [List.filter_cons, hr, List.find?_cons, hq]
      | false => simp [List.filter_cons, hr, List.find?_cons, hq, find?_filter_comm q r h l]
    | false =>
      have hq : q a = false := by
        cases hqa : q a
        · rfl
        · exact absurd (h a hqa) (by simp [hr])
      simp [List.filter_cons, hr, List.find?_cons, hq, find?_filter_comm q r h l]

theorem Cli.mapGet_mapInsert (m : List (Str × Str)) (k v k' : Str) :
    Cli.mapGet (Cli.mapInsert m k v) k' = if k' = k then some v else Cli.mapGet m k' := by
  unfold Cli.mapGet Cli.mapInsert
  rw [List.find?_append]
  by_cases h : k' = k
  · subst h
    have hnone : (m.filter (fun p => p.1 != k')).find? (fun p => p.1 == k') = none := by
      rw [List.find?_eq_none]
      intro p hp
      have h2 := (List.mem_filter.mp hp).2
      simp only [bne_iff_ne, ne_eq] at h2
      simp [h2]
    rw [hnone]
    simp [List.find?_cons]
  · have hkk : (k == k') = false := beq_eq_false_iff_ne.mpr (fun hh => h hh.symm)
    have hfind : (([(k, v)] : List (Str × Str)).find? (fun p => p.1 == k')) = none := by
      simp [List.find?_cons, hkk]
    rw [find?_filter_comm (fun p => p.1 == k') (fun p => p.1 != k)
        (fun a ha => by
          simp only [beq_iff_eq] at ha
          show (a.1 != k) = true
          rw [ha]
          exact bne_iff_ne.mpr h),
      hfind]
    simp [h]

theorem Cli.mapGet_insertFold (k : Str) :
    ∀ (kvs m₀ : List (Str × Str)),
      Cli.mapGet (kvs.foldl (fun m p => Cli.mapInsert m p.1 p.2) m₀) k =
        (Cli.lookupLast kvs k).or (Cli.mapGet m₀ k)
  | [], m₀ => by simp [Cli.lookupLast]
  | p :: kvs, m₀ => by
    rw [List.foldl_cons, Cli.mapGet_insertFold k kvs (Cli.mapInsert m₀ p.1 p.2),
      Cli.mapGet_mapInsert]
    unfold Cli.lookupLast
    rw [List.reverse_cons, List.find?_append]
    cases hfind : (kvs.reverse.find? (fun q => q.1 == k)) with
    | some q => simp [hfind]
    | none =>
      simp only [hfind, Option.none_or, Option.map_none']
      by_cases hk : k = p.1
      · have : (p.1 == k) = true := beq_iff_eq.mpr hk.symm
        simp [List.find?_cons, this, hk]
      · have : (p.1 == k) = false := beq_eq_false_iff_ne.mpr (fun hh => hk hh.symm)
        simp [List.find?_cons, this, hk]

theorem Cli.validateTags_isSome {s : Str} (hv : Cli.validateTags s = false) :
    ∀ pair ∈ s.splitOn ',', (Cli.splitN2 pair).2.isSome = true := by
  intro pair hp
  unfold Cli.validateTags at hv
  rw [Bool.or_eq_false_iff] at hv
  have h2 := List.any_eq_false.mp hv.2 pair hp
  cases hsp : (Cli.splitN2 pair) with
  | mk k o =>
    cases o with
    | none =>
      rw [hsp] at h2
      simp at h2
    | some v => rfl

theorem Cli.parseFold_some :
    ∀ (pairs : List Str), (∀ pair ∈ pairs, (Cli.splitN2 pair).2.isSome = true) →
      ∀ m₀ : List (Str × Str),
        pairs.foldl Cli.parseStep (some m₀) =
          some ((pairs.map Cli.pairKV).foldl (fun m p => Cli.mapInsert m p.1 p.2) m₀)
  | [], _, m₀ => rfl
  | pair :: pairs, h, m₀ => by
    have hp := h pair (List.mem_cons_self pair pairs)
    cases hsp : Cli.splitN2 pair with
    | mk k o =>
      cases o with
      | none =>
        rw [hsp] at hp
        simp at hp
      | some v =>
        rw [List.foldl_cons, List.map_cons, List.foldl_cons]
        have hstep : Cli.parseStep (some m₀) pair =
            some (Cli.mapInsert m₀ (Cli.pairKV pair).1 (Cli.pairKV pair).2) := by
          unfold Cli.parseStep Cli.pairKV
          rw [hsp]
          rfl
        rw [hstep]
        exact Cli.parseFold_some pairs (fun q hq => h q (List.mem_cons_of_mem _ hq))
          (Cli.mapInsert m₀ (Cli.pairKV pair).1 (Cli.pairKV pair).2)

/-- C10: every tags string the CLI validator accepts parses safely:
each comma-separated pair splits on ':' into exactly two parts (so the
`parts[1]` access of `parseCustomTags` is never out of range), and the
resulting map sends each pair's whitespace-trimmed key to its
whitespace-trimmed value, later duplicate keys overriding earlier ones. -/
theorem parseCustomTags_spec (s : Str) (hv : Cli.validateTags s = false) :
    (∀ pair ∈ s.splitOn ',', (Cli.splitN2 pair).2.isSome = true) ∧
    ∃ m, Cli.parseCustomTags s = some m ∧
      ∀ k, Cli.mapGet m k = Cli.lookupLast ((s.splitOn ',').map Cli.pairKV) k := by
  have hall := Cli.validateTags_isSome hv
  refine ⟨hall,
    ((s.splitOn ',').map Cli.pairKV).foldl (fun m p => Cli.mapInsert m p.1 p.2) [],
    ?_, ?_⟩
  · unfold Cli.parseCustomTags
    exact Cli.parseFold_some _ hall []
  · intro k
    rw [Cli.mapGet_insertFold k]
    simp [Cli.mapGet]

/-- Witness for C10 at the accepted tags string "a:b,a:c": parsing succeeds
and the later pair overrides the earlier one. -/
theorem parseCustomTags_spec_witness :
    (Cli.splitN2 "a:b".toList).2.isSome = true ∧
    ∃ m, Cli.parseCustomTags "a:b,a:c".toList = some m ∧
      Cli.mapGet m "a".toList = some "c".toList := by
  obtain ⟨hall, m, hm, hget⟩ := parseCustomTags_spec "a:b,a:c".toList (by decide)
  refine ⟨hall "a:b".toList (by decide), m, hm, ?_⟩
  rw [hget "a".toList]
  decide

end AwsTagger
